import Mathlib

/-!
Verification of the M-Pesa statement pipeline (cleaner, categorizer, analyzer).

The definitions below are a shallow embedding of the Python sources:
`src/data/cleaner.py`, `src/categorization/categorizer.py`,
`src/analysis/analyzer.py`.  Strings are modelled as Lean `String`
(lists of characters); pandas columns as lists of column names; money
amounts as rationals.  Python string primitives (`strip`, `lower`,
`title`, substring tests) are modelled for ASCII text, which is the
alphabet of the statement data; regular expressions are embedded as
explicit scanning functions that reproduce the lazy-group semantics
of `re.search` on newline-free input.
-/

namespace Sape

/-! ## Python string primitives -/

/-- Whitespace trim on a character list: Python `str.strip()` for ASCII. -/
def stripChars (l : List Char) : List Char :=
  ((l.dropWhile Char.isWhitespace).reverse.dropWhile Char.isWhitespace).reverse

/-- Python `str.strip()`. -/
def pyStrip (s : String) : String := ⟨stripChars s.data⟩

/-- Python `str.lower()` (ASCII). -/
def pyLower (s : String) : String := ⟨s.data.map Char.toLower⟩

/-- Python `str.replace(" ", "")`. -/
def removeSpaces (s : String) : String := ⟨s.data.filter (fun c => !(c = ' '))⟩

/-- Python `str.replace(".", "")`. -/
def removeDots (s : String) : String := ⟨s.data.filter (fun c => !(c = '.'))⟩

/-- Python `str.replace(",", "")`. -/
def removeCommas (s : String) : String := ⟨s.data.filter (fun c => !(c = ','))⟩

/-- Worker for `pyTitle`: the flag records whether the previous character
was alphabetic (for ASCII this coincides with Python cased characters). -/
def titleChars : Bool → List Char → List Char
  | _, [] => []
  | prevAlpha, c :: rest =>
    if c.isAlpha then
      (if prevAlpha then c.toLower else c.toUpper) :: titleChars true rest
    else
      c :: titleChars false rest

/-- Python `str.title()` (ASCII): first letter of every alphabetic run is
upper-cased, the rest lower-cased. -/
def pyTitle (s : String) : String := ⟨titleChars false s.data⟩

/-- Python `str.startswith(pat)` on character lists. -/
def listStartsWith : List Char → List Char → Bool
  | _, [] => true
  | [], _ :: _ => false
  | c :: s, d :: p => c = d && listStartsWith s p

/-- Python substring test `pat in s` on character lists. -/
def listContainsSub : List Char → List Char → Bool
  | [], p => p.isEmpty
  | c :: t, p => listStartsWith (c :: t) p || listContainsSub t p

/-- Python `pat in v` for strings. -/
def strContains (v pat : String) : Bool := listContainsSub v.data pat.data

/-- Python `v.startswith(pat)` for strings. -/
def strStarts (v pat : String) : Bool := listStartsWith v.data pat.data

/-- Python truthiness test `v and v[0].isdigit()`. -/
def headIsDigit (s : String) : Bool :=
  match s.data with
  | c :: _ => c.isDigit
  | [] => false

/-- Python `s.split(" ", 1)`: the part before the first space character and
the part after it, or `none` when the string has no space. -/
def breakAtSpace : List Char → Option (List Char × List Char)
  | [] => none
  | c :: rest =>
    if c = ' ' then some ([], rest)
    else (breakAtSpace rest).map fun pq => (c :: pq.1, pq.2)

/-! ## cleaner.py: DETAILS_PATTERN and split_details

`DETAILS_PATTERN = re.compile(r"(.*?)(?<!\S)(?: *)-(?: *)\s(?=\S)(.*)")`.
The separator piece `(?<!\S)(?: *)-(?: *)\s(?=\S)` matches, at a position
preceded by whitespace or the start of the string, a run of spaces, a
hyphen, a run of spaces, one whitespace character, looking ahead at a
non-whitespace character.  The leading group `(.*?)` is lazy, so
`re.search` finds the match with the smallest group-1, which is the
FIRST position at which the separator piece matches.  The functions
below reproduce that scan for newline-free input (cleaned details have
all whitespace collapsed to single spaces). -/

/-- Number of leading literal space characters, the run `(?: *)` consumes. -/
def spacesCount (l : List Char) : Nat := (l.takeWhile (fun c => c = ' ')).length

/-- Match `(?: *)-` at the head of `l`: the space run followed by a hyphen.
Greedy backtracking is deterministic here because a space is not a hyphen.
Returns the suffix after the hyphen. -/
def afterHyphen (l : List Char) : Option (List Char) :=
  match l.drop (spacesCount l) with
  | '-' :: rest => some rest
  | _ => none

/-- The test for one backtracking step of `(?: *)\s(?=\S)` after the hyphen:
position `j` holds a whitespace character and position `j+1` a
non-whitespace character. -/
def tailOkay (t : List Char) (j : Nat) : Bool :=
  (match t[j]? with | some c => c.isWhitespace | none => false) &&
  (match t[j + 1]? with | some c => !c.isWhitespace | none => false)

/-- Backtracking loop for `(?: *)\s(?=\S)(.*)` after the hyphen: the greedy
space run tries `j` spaces from the maximum down to zero; on success
group 2 is everything after the matched whitespace character. -/
def sepTail (t : List Char) : Nat → Option (List Char)
  | 0 => if tailOkay t 0 then some (t.drop 1) else none
  | j + 1 => if tailOkay t (j + 1) then some (t.drop (j + 2)) else sepTail t j

/-- Match the whole separator piece at the head of `l`; returns group 2. -/
def trySep (l : List Char) : Option (List Char) :=
  match afterHyphen l with
  | none => none
  | some rest => sepTail rest (spacesCount rest)

/-- Lazy scan of `re.search`: try each end position of group 1 from left to
right; the lookbehind `(?<!\S)` requires the previous character (tracked in
the flag, initially true for the start of the string) to be whitespace.
Returns the length of group 1 and group 2. -/
def scanSep : Bool → List Char → Option (Nat × List Char)
  | _, [] => none
  | prevWs, c :: rest =>
    match (if prevWs then trySep (c :: rest) else none) with
    | some g2 => some (0, g2)
    | none => (scanSep c.isWhitespace rest).map fun pg => (pg.1 + 1, pg.2)

/-- Embedding of `split_details` (cleaner.py): on a match both groups are
stripped; with no match the input is returned for both components. -/
def split_details (s : String) : String × String :=
  match scanSep true s.data with
  | some (p, g2) => (pyStrip ⟨s.data.take p⟩, pyStrip ⟨g2⟩)
  | none => (s, s)

/-- Specification-side predicate: the separator piece of `DETAILS_PATTERN`
matches with group 1 of length `p` (so at position `p`, whose previous
character must be whitespace or the string start). -/
def sepAtG (prevWs : Bool) (l : List Char) : Nat → Bool
  | 0 => prevWs && (trySep l).isSome
  | q + 1 =>
    (match l[q]? with | some c => c.isWhitespace | none => false) &&
    (trySep (l.drop (q + 1))).isSome

/-- Separator occurrence in a full details string. -/
def sepAt (l : List Char) (p : Nat) : Bool := sepAtG true l p

/-! ## Lemmas about the separator scan -/

theorem trySep_nil : trySep [] = none := rfl

theorem sepAtG_cons (prev : Bool) (c : Char) (rest : List Char) (p : Nat) :
    sepAtG prev (c :: rest) (p + 1) = sepAtG c.isWhitespace rest p := by
  cases p with
  | zero => simp [sepAtG]
  | succ q => simp [sepAtG]

theorem scanSep_none_spec (l : List Char) :
    ∀ prev, scanSep prev l = none → ∀ p, sepAtG prev l p = false := by
  induction l with
  | nil =>
    intro prev _ p
    cases p with
    | zero => simp [sepAtG, trySep_nil]
    | succ q => simp [sepAtG]
  | cons c rest ih =>
    intro prev h p
    rw [scanSep] at h
    cases htry : (if prev then trySep (c :: rest) else none) with
    | some g2 => rw [htry] at h; exact absurd h (by simp)
    | none =>
      rw [htry] at h
      cases hrec : scanSep c.isWhitespace rest with
      | some pg => rw [hrec] at h; exact absurd h (by simp)
      | none =>
        cases p with
        | zero =>
          cases hp : prev with
          | false => simp [sepAtG, hp]
          | true =>
            rw [hp] at htry
            simp only [if_true] at htry
            simp [sepAtG, htry]
        | succ q =>
          rw [sepAtG_cons]
          exact ih c.isWhitespace hrec q

theorem scanSep_some_spec (l : List Char) :
    ∀ prev p g2, scanSep prev l = some (p, g2) →
      sepAtG prev l p = true ∧ trySep (l.drop p) = some g2 ∧
        ∀ q, q < p → sepAtG prev l q = false := by
  induction l with
  | nil => intro prev p g2 h; exact absurd h (by simp [scanSep])
  | cons c rest ih =>
    intro prev p g2 h
    rw [scanSep] at h
    cases htry : (if prev then trySep (c :: rest) else none) with
    | some g0 =>
      rw [htry] at h
      cases hp : prev with
      | false => rw [hp] at htry; exact absurd htry (by simp)
      | true =>
        rw [hp] at htry
        simp only [if_true] at htry
        simp only [Option.some.injEq, Prod.mk.injEq] at h
        obtain ⟨hp1, hg1⟩ := h
        refine ⟨?_, ?_, ?_⟩
        · rw [← hp1]; simp [sepAtG, htry]
        · rw [← hp1, ← hg1]; simpa using htry
        · intro q hq; rw [← hp1] at hq; omega
    | none =>
      rw [htry] at h
      cases hrec : scanSep c.isWhitespace rest with
      | none => rw [hrec] at h; exact absurd h (by simp)
      | some pg =>
        rw [hrec] at h
        obtain ⟨p', g0⟩ := pg
        have hp1 : p = p' + 1 := by
          have := congrArg (fun o => Option.map Prod.fst o) h
          simpa using this.symm
        have hg1 : g2 = g0 := by
          have := congrArg (fun o => Option.map Prod.snd o) h
          simpa using this.symm
        obtain ⟨h1, h2, h3⟩ := ih c.isWhitespace p' g0 hrec
        have hp0 : sepAtG prev (c :: rest) 0 = false := by
          cases hp : prev with
          | false => simp [sepAtG, hp]
          | true =>
            rw [hp] at htry
            simp only [if_true] at htry
            simp [sepAtG, htry]
        refine ⟨?_, ?_, ?_⟩
        · rw [hp1, sepAtG_cons]; exact h1
        · rw [hp1, hg1]; simpa using h2
        · intro q hq
          rw [hp1] at hq
          cases q with
          | zero => exact hp0
          | succ q' =>
            rw [sepAtG_cons]
            exact h3 q' (by omega)

/-! ## Claim C1 -/

/-- C1, corrected.  The spec says `split_details` splits at the LAST
whitespace-bounded hyphen separator; the lazy group in `DETAILS_PATTERN`
makes `re.search` split at the FIRST one.  Amended statement: whenever
the separator occurs (at a least position `p`), `split_details` returns
the stripped text before that first separator and the stripped text
after it; when the separator occurs nowhere, both components equal the
input unchanged. -/
theorem claim1_split_details_first_separator (s : String) :
    ((∀ p, sepAt s.data p = false) → split_details s = (s, s)) ∧
    (∀ p g2, sepAt s.data p = true → (∀ q, q < p → sepAt s.data q = false) →
      trySep (s.data.drop p) = some g2 →
      split_details s = (pyStrip ⟨s.data.take p⟩, pyStrip ⟨g2⟩)) := by
  constructor
  · intro hall
    unfold split_details
    cases hscan : scanSep true s.data with
    | none => rfl
    | some pg =>
      obtain ⟨p0, g0⟩ := pg
      obtain ⟨h1, _, _⟩ := scanSep_some_spec s.data true p0 g0 hscan
      have hf := hall p0
      simp only [sepAt] at hf
      rw [h1] at hf
      exact absurd hf (by simp)
  · intro p g2 hp hmin htry
    simp only [sepAt] at hp
    unfold split_details
    cases hscan : scanSep true s.data with
    | none =>
      have hn := scanSep_none_spec s.data true hscan p
      rw [hp] at hn
      exact absurd hn (by simp)
    | some pg =>
      obtain ⟨p0, g0⟩ := pg
      obtain ⟨h1, h2, h3⟩ := scanSep_some_spec s.data true p0 g0 hscan
      have hpe : p = p0 := by
        rcases lt_trichotomy p p0 with hlt | heq | hgt
        · have := h3 p hlt
          rw [hp] at this
          exact absurd this (by simp)
        · exact heq
        · have := hmin p0 hgt
          simp only [sepAt] at this
          rw [h1] at this
          exact absurd this (by simp)
      subst hpe
      have hg : g0 = g2 := Option.some.inj (h2.symm.trans htry)
      rw [hg]

/-- C1, counterexample to the claim as stated.  The details string
`"A - B - C"` has two separators (group-1 lengths 2 and 6); splitting at
the last one would give `("A - B", "C")`, but the code returns
`("A", "B - C")`, the split at the first one. -/
theorem claim1_counterexample :
    sepAt ("A - B - C").data 2 = true ∧ sepAt ("A - B - C").data 6 = true ∧
    split_details "A - B - C" = ("A", "B - C") ∧
    split_details "A - B - C" ≠ ("A - B", "C") := by
  refine ⟨by decide, by decide, by decide, by decide⟩

/-- C1, regression examples from the spec text. -/
theorem split_details_spec_examples :
    split_details "Customer transfer to 254712345678 - JOHN DOE" =
      ("Customer transfer to 254712345678", "JOHN DOE") ∧
    split_details "no separator here" = ("no separator here", "no separator here") := by
  refine ⟨by decide, by decide⟩

/-! ## cleaner.py: clean_data column handling and failure modes -/

/-- The recognized statement column names (`EXPECTED_COLUMNS`). -/
def EXPECTED_COLUMNS : List String :=
  ["Receiptno.", "ReceiptNo", "CompletionTime", "Details", "PaidIn", "Withdrawn"]

/-- Column detection in `clean_data`: each raw column name is stripped
(only), each expected name is lower-cased and space-stripped, and the test
is list membership, hence exact string equality. -/
def hasExpectedCols (cols : List String) : Bool :=
  EXPECTED_COLUMNS.any fun e => (cols.map pyStrip).contains (removeSpaces (pyLower e))

/-- Duplicate column handling `df.loc[:, ~df.columns.duplicated(keep="last")]`:
an occurrence is kept exactly when its name does not occur again later. -/
def dropDupKeepLast {α : Type} : List (String × α) → List (String × α)
  | [] => []
  | c :: rest =>
    if c.1 ∈ rest.map Prod.fst then dropDupKeepLast rest
    else c :: dropDupKeepLast rest

/-- The name-only version of the duplicate drop, for the error model. -/
def dropDupKeepLastNames : List String → List String
  | [] => []
  | c :: rest =>
    if c ∈ rest then dropDupKeepLastNames rest else c :: dropDupKeepLastNames rest

/-- Column standardization in `_clean_column_values`:
`df.columns.str.lower().str.strip()`. -/
def standardizeCol (c : String) : String := pyStrip (pyLower c)

/-- The two historical alias renames in `_clean_column_values`. -/
def renameAlias (c : String) : String :=
  if c = "receiptno." then "receiptno"
  else if c = "withdraw\nn" then "withdrawn"
  else c

/-- The lower-cased, period-stripped recognized names
(`expected_cols_lower`; the Python `set(...)` only matters for
membership, modelled by `dedup`). -/
def expectedColsLower : List String :=
  (EXPECTED_COLUMNS.map fun c => removeDots (pyLower c)).dedup

/-- The failure modes of `clean_data` on its way through column handling:
`emptyInput` and `noExpectedCols` raise `DataCleaningError`;
`missingTimeKey` is the `KeyError` from `df["completiontime"]` when that
column is absent after standardization; `noExpectedAfterStd` is the second
`DataCleaningError` (`"Expected M-Pesa columns not found after
standardization"`). -/
inductive CleanError where
  | emptyInput
  | noExpectedCols
  | missingTimeKey
  | noExpectedAfterStd
deriving DecidableEq, Repr

/-- Error behaviour of `clean_data` as a function of the raw column names
and the row count (value cleaning never raises; rows only matter for the
`df.empty` test). Follows the source order: empty test, detection test,
duplicate drop, standardization, the `completiontime` row filter (a
`KeyError` when the column is missing), alias renames, and the
`present_cols` test. -/
def cleanDataError (cols : List String) (nrows : Nat) : Option CleanError :=
  if nrows = 0 ∨ cols = [] then some .emptyInput
  else if ¬ hasExpectedCols cols then some .noExpectedCols
  else
    let cols2 := (dropDupKeepLastNames cols).map standardizeCol
    if "completiontime" ∉ cols2 then some .missingTimeKey
    else
      let cols3 := cols2.map renameAlias
      let present := expectedColsLower.filter fun c => cols3.contains c
      if present = [] then some .noExpectedAfterStd else none

/-! ## cleaner.py: amount cleaning -/

/-- Value of a digit run. -/
def digitsVal (l : List Char) : Nat :=
  l.foldl (fun acc c => acc * 10 + (c.toNat - ('0').toNat)) 0

/-- Decimal numeral parsing as performed by `pd.to_numeric(...,
errors="coerce")` on statement cells, modelled for plain decimal numerals:
optional surrounding whitespace, an optional sign, an integer part and an
optional fractional part, at least one digit in total.  Exotic float
syntax (exponents, infinities) does not occur in statement amounts and is
not modelled. -/
def parseFloat (s : String) : Option ℚ :=
  let l := stripChars s.data
  let sign : Bool := match l with | '-' :: _ => true | _ => false
  let l1 : List Char :=
    match l with
    | '-' :: t => t
    | '+' :: t => t
    | t => t
  let intPart := l1.takeWhile Char.isDigit
  let rest := l1.drop intPart.length
  let mk : ℚ → Option ℚ := fun q => some (if sign then -q else q)
  match rest with
  | [] => if intPart.isEmpty then none else mk (digitsVal intPart)
  | '.' :: frac =>
    let fracD := frac.takeWhile Char.isDigit
    if ¬ (frac.drop fracD.length = []) then none
    else if intPart.isEmpty ∧ fracD.isEmpty then none
    else mk ((digitsVal intPart : ℚ) + (digitsVal fracD : ℚ) / (10 ^ fracD.length))
  | _ => none

/-- The whole-cell sentinel replacement `.replace(["", "-", "N/A", "nan"], "0")`
(applied after comma removal; a pandas `NaN` cell stringifies to `"nan"`). -/
def sentinelToZero (s : String) : String :=
  if s = "" ∨ s = "-" ∨ s = "N/A" ∨ s = "nan" then "0" else s

/-- Cleaning of one `withdrawn` cell: strip commas, replace sentinels by
`"0"`, coerce to a number, take the absolute value, fill a failed parse
with zero. -/
def cleanAmountWithdrawn (s : String) : ℚ :=
  match parseFloat (sentinelToZero (removeCommas s)) with
  | some q => |q|
  | none => 0

/-- Cleaning of one `paidin` cell: identical except that no absolute value
is taken. -/
def cleanAmountPaidIn (s : String) : ℚ :=
  match parseFloat (sentinelToZero (removeCommas s)) with
  | some q => q
  | none => 0

/-! ## Claim C2 -/

theorem hasExpectedCols_iff (cols : List String) :
    hasExpectedCols cols = true ↔
      ∃ e ∈ EXPECTED_COLUMNS, removeSpaces (pyLower e) ∈ cols.map pyStrip := by
  simp [hasExpectedCols, List.any_eq_true, List.elem_iff]

theorem mem_filter_ne_nil {α : Type} {l : List α} {p : α → Bool} {a : α}
    (ha : a ∈ l) (hp : p a = true) : l.filter p ≠ [] := by
  intro hemp
  have : a ∈ l.filter p := List.mem_filter.mpr ⟨ha, hp⟩
  rw [hemp] at this
  exact absurd this (List.not_mem_nil a)

/-- C2, corrected.  The spec says column detection is case- and
space-insensitive; in the code only the expected names are lower-cased
while the raw column names are merely stripped, so detection demands that
a stripped raw name equal a lower-cased recognized name exactly.
Amended statement: `clean_data` raises `DataCleaningError` for an empty
table, and for a non-empty table exactly when no stripped raw column name
equals a lower-cased space-stripped recognized name; the second
`DataCleaningError` (no recognized column surviving standardization) is
unreachable, because a missing `completiontime` column fails earlier with
a `KeyError` and otherwise `completiontime` itself survives. -/
theorem claim2_clean_data_error_characterization (cols : List String) (nrows : Nat) :
    (cleanDataError cols nrows = some CleanError.emptyInput ↔ (nrows = 0 ∨ cols = [])) ∧
    (cleanDataError cols nrows = some CleanError.noExpectedCols ↔
      (¬ (nrows = 0 ∨ cols = []) ∧
        ¬ ∃ e ∈ EXPECTED_COLUMNS, removeSpaces (pyLower e) ∈ cols.map pyStrip)) ∧
    cleanDataError cols nrows ≠ some CleanError.noExpectedAfterStd := by
  unfold cleanDataError
  by_cases h1 : nrows = 0 ∨ cols = []
  · simp [h1]
  · rw [if_neg h1]
    by_cases h2 : hasExpectedCols cols = true
    · rw [if_neg (by simpa using h2)]
      have h2e := (hasExpectedCols_iff cols).mp h2
      by_cases h3 :
          "completiontime" ∈ (dropDupKeepLastNames cols).map standardizeCol
      · rw [if_neg (by simpa using h3)]
        have hpres :
            expectedColsLower.filter
              (fun c =>
                (((dropDupKeepLastNames cols).map standardizeCol).map
                    renameAlias).contains c) ≠ [] := by
          refine mem_filter_ne_nil (a := "completiontime") (by decide) ?_
          have hmem : "completiontime" ∈
              ((dropDupKeepLastNames cols).map standardizeCol).map renameAlias :=
            List.mem_map.mpr ⟨"completiontime", h3, rfl⟩
          exact List.elem_iff.mpr hmem
        rw [if_neg hpres]
        exact ⟨iff_of_false (by simp) h1,
          iff_of_false (by simp) (fun hcon => hcon.2 h2e), by simp⟩
      · rw [if_pos (by simpa using h3)]
        exact ⟨iff_of_false (by simp) h1,
          iff_of_false (by simp) (fun hcon => hcon.2 h2e), by simp⟩
    · rw [if_pos (by simpa using h2)]
      refine ⟨iff_of_false (by simp) h1, ?_, by simp⟩
      refine iff_of_true rfl ⟨h1, ?_⟩
      intro hex
      exact h2 ((hasExpectedCols_iff cols).mpr hex)

/-- C2, counterexample to the claim as stated.  A one-row table whose
only column is the recognized name `"ReceiptNo"` (so it matches the
recognized list even letter-for-letter, a fortiori up to case) is
rejected by the column-detection step with `DataCleaningError`. -/
theorem claim2_counterexample :
    "ReceiptNo" ∈ EXPECTED_COLUMNS ∧
    cleanDataError ["ReceiptNo"] 1 = some CleanError.noExpectedCols := by
  refine ⟨by decide, by decide⟩

/-! ## Claim C3 -/

/-- C3, corrected.  `withdrawn` is coerced through `.abs()` and is always
non-negative, but `paidin` has no `.abs()`: the claim that `paid_in >= 0`
holds "regardless of the source sign" fails for a negative numeric cell.
Amended statement: `withdrawn` is always non-negative and equals the
absolute value of what the `paidin` pipeline yields on the same cell,
sentinels and unparseable cells become zero for both, and `paid_in`
equals the parsed value as-is, negative sign included. -/
theorem claim3_amount_cleaning (s : String) :
    0 ≤ cleanAmountWithdrawn s ∧
    cleanAmountWithdrawn s = |cleanAmountPaidIn s| ∧
    ∀ q : ℚ, parseFloat (removeCommas s) = some q → cleanAmountPaidIn s = q := by
  refine ⟨?_, ?_, ?_⟩
  · unfold cleanAmountWithdrawn
    cases h : parseFloat (sentinelToZero (removeCommas s)) with
    | some q => simp
    | none => simp
  · unfold cleanAmountWithdrawn cleanAmountPaidIn
    cases h : parseFloat (sentinelToZero (removeCommas s)) with
    | some q => simp
    | none => simp
  · intro q hq
    by_cases hs : removeCommas s = "" ∨ removeCommas s = "-" ∨
        removeCommas s = "N/A" ∨ removeCommas s = "nan"
    · exfalso
      have hnone : parseFloat (removeCommas s) = none := by
        rcases hs with h | h | h | h <;> rw [h] <;> decide
      rw [hnone] at hq
      exact absurd hq (by simp)
    · have hst : sentinelToZero (removeCommas s) = removeCommas s := by
        unfold sentinelToZero
        rw [if_neg hs]
      unfold cleanAmountPaidIn
      rw [hst, hq]

/-- C3, counterexample to the claim as stated: the cell `"-5"` is kept
negative by the `paidin` pipeline. -/
theorem claim3_counterexample :
    cleanAmountPaidIn "-5" = -5 ∧ cleanAmountPaidIn "-5" < 0 := by
  refine ⟨by decide, by decide⟩

/-- C3, the positive spec examples: thousands separators are stripped and
the `"-"` sentinel becomes zero. -/
theorem amount_cleaning_spec_examples :
    cleanAmountWithdrawn "1,500" = 1500 ∧ cleanAmountWithdrawn "-" = 0 ∧
    cleanAmountPaidIn "1,500" = 1500 ∧ cleanAmountPaidIn "-" = 0 := by
  refine ⟨by decide, by decide, by decide, by decide⟩

/-! ## Claim C10 -/

theorem dropDupKeepLast_sublist {α : Type} (cols : List (String × α)) :
    List.Sublist (dropDupKeepLast cols) cols := by
  induction cols with
  | nil => exact List.Sublist.refl []
  | cons c rest ih =>
    unfold dropDupKeepLast
    by_cases h : c.1 ∈ rest.map Prod.fst
    · rw [if_pos h]; exact ih.cons c
    · rw [if_neg h]; exact ih.cons₂ c

theorem getLast?_cons_of_ne_nil {α : Type} (a : α) {l : List α} (h : l ≠ []) :
    (a :: l).getLast? = l.getLast? := by
  cases l with
  | nil => exact absurd rfl h
  | cons b t => exact List.getLast?_cons_cons

/-- C10, confirmed.  `clean_data` removes duplicate column names with
`df.columns.duplicated(keep="last")` (despite the adjacent comment saying
"keep only first occurrence"): the surviving columns are a subsequence of
the originals, their names are pairwise distinct, and for every name the
surviving column is exactly the last original column bearing it. -/
theorem claim10_duplicate_columns_keep_last {α : Type} (cols : List (String × α)) :
    List.Sublist (dropDupKeepLast cols) cols ∧
    ((dropDupKeepLast cols).map Prod.fst).Nodup ∧
    ∀ n : String, (dropDupKeepLast cols).filter (fun c => c.1 == n) =
      ((cols.filter fun c => c.1 == n).getLast?).toList := by
  refine ⟨dropDupKeepLast_sublist cols, ?_, ?_⟩
  · induction cols with
    | nil => simp [dropDupKeepLast]
    | cons c rest ih =>
      unfold dropDupKeepLast
      by_cases h : c.1 ∈ rest.map Prod.fst
      · rw [if_pos h]; exact ih
      · rw [if_neg h]
        rw [List.map_cons, List.nodup_cons]
        refine ⟨?_, ih⟩
        intro hmem
        exact h (((dropDupKeepLast_sublist rest).map Prod.fst).subset hmem)
  · intro n
    induction cols with
    | nil => simp [dropDupKeepLast]
    | cons c rest ih =>
      unfold dropDupKeepLast
      by_cases h : c.1 ∈ rest.map Prod.fst
      · rw [if_pos h]
        by_cases hc : c.1 = n
        · have hne : rest.filter (fun x => x.1 == n) ≠ [] := by
            obtain ⟨x, hx, hfst⟩ := List.mem_map.mp h
            exact mem_filter_ne_nil hx (by simp [hfst, hc])
          rw [List.filter_cons_of_pos (by simpa using hc),
            getLast?_cons_of_ne_nil c hne]
          exact ih
        · rw [List.filter_cons_of_neg (by simpa using hc)]
          exact ih
      · rw [if_neg h]
        by_cases hc : c.1 = n
        · have hrest : rest.filter (fun x => x.1 == n) = [] := by
            rw [List.filter_eq_nil_iff]
            intro x hx
            simp only [beq_iff_eq]
            intro hxn
            exact h (List.mem_map.mpr ⟨x, hx, by rw [hxn, hc]⟩)
          have hkept : (dropDupKeepLast rest).filter (fun x => x.1 == n) = [] := by
            have hsub := (dropDupKeepLast_sublist rest).filter (fun x => x.1 == n)
            rw [hrest] at hsub
            exact List.sublist_nil.mp hsub
          rw [List.filter_cons_of_pos (by simpa using hc),
            List.filter_cons_of_pos (by simpa using hc), hkept, hrest]
          rfl
        · rw [List.filter_cons_of_neg (by simpa using hc),
            List.filter_cons_of_neg (by simpa using hc)]
          exact ih

/-! ## categorizer.py: field match-specs

A YAML match-spec is a mapping that may carry the five recognized
operator keys and possibly unrecognized ones; `otherKeys` records whether
any unrecognized key is present (it only feeds the `if field_patterns:`
emptiness test). -/

structure FieldSpec where
  contains : Option (List String) := none
  equals : Option String := none
  startswith : Option (List String) := none
  startswith_numeric : Option Bool := none
  not_starts_with : Option String := none
  otherKeys : Bool := false
deriving DecidableEq, Repr

/-- Python `if field_patterns:`, the dict non-emptiness test. -/
def FieldSpec.nonEmptyMap (p : FieldSpec) : Bool :=
  p.contains.isSome || p.equals.isSome || p.startswith.isSome ||
    p.startswith_numeric.isSome || p.not_starts_with.isSome || p.otherKeys

/-- Embedding of `_matches_field_pattern`: the five operator blocks in
source order, each an early `return True` on success, then the two
fallthrough returns. -/
def matchesFieldPattern (v : String) (p : FieldSpec) : Bool :=
  if (match p.contains with
      | some l => l.any fun pat => strContains v pat
      | none => false) then true
  else if (match p.equals with
      | some e => v == e
      | none => false) then true
  else if (match p.startswith with
      | some l => l.any fun pat => strStarts v pat
      | none => false) then true
  else if (match p.startswith_numeric with
      | some b => b && headIsDigit v
      | none => false) then true
  else if (match p.not_starts_with with
      | some pre => !strStarts v pre
      | none => false) then true
  else if p.nonEmptyMap then
    p.contains.isNone && p.equals.isNone && p.startswith.isNone &&
      p.startswith_numeric.isNone
  else true

/-- Specification-side operator disjunction: some configured operator on
the spec succeeds on the field value. -/
def opSuccess (v : String) (p : FieldSpec) : Bool :=
  (match p.contains with
   | some l => l.any fun pat => strContains v pat
   | none => false) ||
  (match p.equals with
   | some e => v == e
   | none => false) ||
  (match p.startswith with
   | some l => l.any fun pat => strStarts v pat
   | none => false) ||
  (match p.startswith_numeric with
   | some b => b && headIsDigit v
   | none => false) ||
  (match p.not_starts_with with
   | some pre => !strStarts v pre
   | none => false)

/-- Specification-side reading of the claim: true iff some operator
succeeds, or no recognized operator key is present at all. -/
def claimFieldMatch (v : String) (p : FieldSpec) : Bool :=
  opSuccess v p ||
    (p.contains.isNone && p.equals.isNone && p.startswith.isNone &&
      p.startswith_numeric.isNone && p.not_starts_with.isNone)

/-! ## categorizer.py: transactions, records and pattern matching -/

/-- A cleaned transaction row as the categorizer reads it. -/
structure Transaction where
  receiptno : String
  completiontime : Int
  details : String
  paidin : ℚ
  withdrawn : ℚ
  entity : String
  type_class : String
  type_desc : String
deriving DecidableEq, Repr

/-- The field names a pattern mapping may mention; `other` stands for any
name outside the four the code recognizes (such a field is skipped by
`continue`). -/
inductive FieldKey where
  | details
  | type_desc
  | type_class
  | entity
  | other
deriving DecidableEq, Repr

/-- A category definition: its unique name and its pattern mapping (the
presentation fields `type`, `description`, `merchant_type`, `color_map`
play no role in matching and are omitted). -/
structure CategoryDef where
  name : String
  patterns : List (FieldKey × FieldSpec)
deriving DecidableEq, Repr

/-- One categorized output record (`base_transaction_data` plus the
fields `_process_entity` may add; `account_no` is `none` when the key was
never set; `subcategory` is always `None` in the code and is omitted). -/
structure CatRecord where
  receiptno : String
  completiontime : Int
  details : String
  paidin : ℚ
  withdrawn : ℚ
  entity : String
  type_class : String
  type_desc : String
  processed_entity : String
  account_no : Option String
  is_charge : Bool
  category : String
deriving DecidableEq, Repr

/-- The `fields` dict of `_matches_pattern`: the three pre-lowered text
fields plus the inline-lowered entity; an unrecognized field name has no
value. -/
def fieldValue (t : Transaction) : FieldKey → Option String
  | .details => some (pyLower t.details)
  | .type_desc => some (pyLower t.type_desc)
  | .type_class => some (pyLower t.type_class)
  | .entity => some (pyLower t.entity)
  | .other => none

/-- Embedding of `_matches_pattern`: every field named in the pattern
mapping must match its spec (AND across fields; unknown names are
skipped). -/
def matchesPattern (t : Transaction) (patterns : List (FieldKey × FieldSpec)) : Bool :=
  patterns.all fun kp =>
    match fieldValue t kp.1 with
    | none => true
    | some v => matchesFieldPattern v kp.2

/-- The `base_transaction_data` dict built at the top of
`categorize_transaction`. -/
def baseRecord (t : Transaction) : CatRecord where
  receiptno := t.receiptno
  completiontime := t.completiontime
  details := t.details
  paidin := t.paidin
  withdrawn := t.withdrawn
  entity := t.entity
  type_class := t.type_class
  type_desc := t.type_desc
  processed_entity := t.entity
  account_no := none
  is_charge := strContains (pyLower t.type_desc) "charge" ||
    strContains (pyLower t.details) "charge"
  category := ""

/-! ## categorizer.py: entity processing -/

/-- The hard-coded `money_transfer_cats` list of `_process_entity`. -/
def money_transfer_cats : List String :=
  ["Send Money", "Received (Individuals)", "Received (Business)",
   "Customer Payment", "Business Transfer (SME)", "Business Transfer (Customer)"]

/-- Embedding of `process_masked_phone`: when the entity carries a masking
asterisk (`masked_phone_pattern` is the regex for one or more asterisks),
split at the first space into a phone token and a name remainder and
title-case both; without an asterisk the whole entity is title-cased and
no account is extracted. -/
def process_masked_phone (entity : String) : String × String :=
  if entity = "" then (entity, "")
  else if entity.data.contains '*' then
    match breakAtSpace entity.data with
    | some (p, rest) => (pyTitle ⟨rest⟩, pyTitle ⟨p⟩)
    | none => (pyTitle entity, "")
  else (pyTitle entity, "")

/-- Match the piece `\s+via.*?is\s+(.*)` of `business_payment_pattern`
(case-insensitive) at the head of the list; the inner lazy group stops at
the first case-insensitive "is" that is followed by whitespace. Returns
group 2 (the text after the whitespace run following "is"). -/
def viaIsTail : List Char → Option (List Char)
  | [] => none
  | c :: rest =>
    match rest with
    | d :: e :: rest3 =>
      if Char.toLower c = 'i' ∧ Char.toLower d = 's' ∧ e.isWhitespace then
        some ((e :: rest3).dropWhile Char.isWhitespace)
      else viaIsTail rest
    | _ => none

/-- Whitespace run, then case-insensitive "via", then the tail piece. -/
def tryViaIsAt (l : List Char) : Option (List Char) :=
  let w := l.takeWhile Char.isWhitespace
  if w.isEmpty then none
  else
    let r1 := l.drop w.length
    match r1 with
    | a :: b :: c :: r2 =>
      if Char.toLower a = 'v' ∧ Char.toLower b = 'i' ∧ Char.toLower c = 'a' then
        viaIsTail r2
      else none
    | _ => none

/-- Lazy scan of `business_payment_pattern`: smallest group 1 such that
the via-is piece matches right after it; `none` when the pattern only
matches through its `|$` alternative (group 2 absent). -/
def scanViaIs : List Char → Option (Nat × List Char)
  | [] => none
  | c :: rest =>
    match tryViaIsAt (c :: rest) with
    | some g2 => some (0, g2)
    | none => (scanViaIs rest).map fun pg => (pg.1 + 1, pg.2)

/-- Embedding of `process_business_and_account`: the regex always matches
(its body ends in `|$`), so an absent via-is piece returns the whole
stripped entity with an empty account. -/
def process_business_and_account (entity : String) : String × String :=
  if entity = "" then (entity, "")
  else
    match scanViaIs entity.data with
    | some (p, g2) => (pyStrip ⟨entity.data.take p⟩, pyStrip ⟨g2⟩)
    | none => (pyStrip entity, "")

/-- Match the piece `\s+Acc\.\s+(.*)` of `paybill_pattern`
(case-sensitive) at the head of the list; returns group 2. -/
def tryPaybillAt (l : List Char) : Option (List Char) :=
  let w := l.takeWhile Char.isWhitespace
  if w.isEmpty then none
  else
    let r1 := l.drop w.length
    if listStartsWith r1 ['A', 'c', 'c', '.'] then
      let r2 := r1.drop 4
      let w2 := r2.takeWhile Char.isWhitespace
      if w2.isEmpty then none else some (r2.drop w2.length)
    else none

/-- Lazy scan of `paybill_pattern`, as for `scanViaIs`. -/
def scanPaybill : List Char → Option (Nat × List Char)
  | [] => none
  | c :: rest =>
    match tryPaybillAt (c :: rest) with
    | some g2 => some (0, g2)
    | none => (scanPaybill rest).map fun pg => (pg.1 + 1, pg.2)

/-- Embedding of `extract_paybill_details`. -/
def extract_paybill_details (entity : String) : String × String :=
  if entity = "" then (entity, "")
  else
    match scanPaybill entity.data with
    | some (p, g2) => (pyStrip ⟨entity.data.take p⟩, pyStrip ⟨g2⟩)
    | none => (pyStrip entity, "")

/-- Embedding of `_process_entity`: dispatch on the category name (the
Python local `entity` is `r.entity`, and the pair returned by each helper
feeds `processed_entity` and `account_no`). -/
def processEntity (r : CatRecord) (category : String) : CatRecord :=
  if category ∈ money_transfer_cats then
    if ¬ r.entity = "" ∧ (headIsDigit r.entity || r.entity.data.contains '*') = true then
      { r with processed_entity := (process_masked_phone r.entity).1,
               account_no := some (process_masked_phone r.entity).2 }
    else
      { r with processed_entity := (process_business_and_account r.entity).1,
               account_no := some (process_business_and_account r.entity).2 }
  else if category = "PayBillPayments" then
    { r with processed_entity := (extract_paybill_details r.entity).1,
             account_no := some (extract_paybill_details r.entity).2 }
  else if category = "airtime_bundle" ∨ category = "Pochi" then
    if ¬ r.entity = "" ∧ (headIsDigit r.entity || r.entity.data.contains '*') = true then
      { r with processed_entity := (process_masked_phone r.entity).1 }
    else r
  else r

/-! ## categorizer.py: categorize_transaction and the stateful run -/

/-- The matching loop of `categorize_transaction`: one record per
matching definition, tagged and entity-processed, in definition order. -/
def matchLoop (t : Transaction) : List CategoryDef → List CatRecord
  | [] => []
  | d :: rest =>
    if matchesPattern t d.patterns then
      processEntity { baseRecord t with category := d.name } d.name ::
        matchLoop t rest
    else matchLoop t rest

/-- Embedding of `categorize_transaction`: the `NoDetails` short-circuit
on empty or literal-nan details, the matching loop, and the
`uncategorized` fallback. -/
def categorize_transaction (defs : List CategoryDef) (t : Transaction) :
    List CatRecord :=
  let details := pyLower t.details
  if details = "nan" ∨ details = "" then
    [{ baseRecord t with category := "NoDetails" }]
  else
    let matched := matchLoop t defs
    if matched = [] then [{ baseRecord t with category := "uncategorized" }]
    else matched

/-- Dict assignment `m[k] = []` preserving insertion order. -/
def dictSetEmpty (m : List (String × List CatRecord)) (k : String) :
    List (String × List CatRecord) :=
  if k ∈ m.map Prod.fst then
    m.map fun kv => if kv.1 = k then (k, []) else kv
  else m ++ [(k, [])]

/-- The categorizer state after `__init__`: the definition list (custom
definitions, if any, already prepended by the caller) and the category
dict seeded with one empty list per definition name plus the two
sentinels. -/
structure CategorizerState where
  category_definitions : List CategoryDef
  categories : List (String × List CatRecord)
deriving Repr

def initState (defs : List CategoryDef) : CategorizerState where
  category_definitions := defs
  categories :=
    dictSetEmpty (dictSetEmpty (defs.foldl (fun m d => dictSetEmpty m d.name) [])
      "NoDetails") "uncategorized"

/-- One `self.categories[category].append(category_data)` guarded by
`if category in self.categories`. -/
def addToCategory (m : List (String × List CatRecord)) (r : CatRecord) :
    List (String × List CatRecord) :=
  if r.category ∈ m.map Prod.fst then
    m.map fun kv => if kv.1 = r.category then (kv.1, kv.2 ++ [r]) else kv
  else m

/-- Embedding of `categorize_transactions`: the single pass appending
every produced record into its category list. -/
def runCategorize (st : CategorizerState) (df : List Transaction) :
    List (String × List CatRecord) :=
  df.foldl
    (fun acc t => (categorize_transaction st.category_definitions t).foldl
      addToCategory acc)
    st.categories

/-! ## analyzer.py: analyze_category

The aggregated frame is a list of rows `(processed_entity, count, amount)`.
Pandas sorts with an unstable quicksort and the spec leaves the order of
ties open, so the descending sort is realized by insertion sort on the
amount; the `figure` field (a plotly chart) is presentation and out of
scope. -/

/-- One row of the aggregated frame. -/
abbrev AggRow : Type := String × Nat × ℚ

/-- Descending order on the summed amount, the `sort_values(by="amount",
ascending=False)` comparison. -/
def aggLE (a b : AggRow) : Prop := b.2.2 ≤ a.2.2

instance : DecidableRel aggLE := fun a b => inferInstanceAs (Decidable (b.2.2 ≤ a.2.2))

instance : IsTotal AggRow aggLE := ⟨fun a b => le_total b.2.2 a.2.2⟩

instance : IsTrans AggRow aggLE := ⟨fun _ _ _ h1 h2 => le_trans h2 h1⟩

/-- The column the direction flag makes authoritative
(`amount_col = "paidin" if is_money_in else "withdrawn"`). -/
def amountOf (is_money_in : Bool) (r : CatRecord) : ℚ :=
  if is_money_in then r.paidin else r.withdrawn

/-- Embedding of the groupby-aggregate-sort of `analyze_category`: group
the rows by `processed_entity`, count rows and sum the authoritative
column per group, sort descending by the summed amount. -/
def aggregateByEntity (is_money_in : Bool) (rows : List CatRecord) : List AggRow :=
  let keys := (rows.map fun r => r.processed_entity).dedup
  let grouped := keys.map fun k =>
    let grp := rows.filter fun r => r.processed_entity == k
    (k, grp.length, (grp.map (amountOf is_money_in)).sum)
  List.insertionSort aggLE grouped

/-- Result record of `analyze_category` (`figure` omitted). -/
structure AnalysisResult where
  total_amount : ℚ
  total_charges : ℚ
  transaction_count : Nat
  aggregated_frame : List AggRow
  raw_df : List CatRecord
deriving DecidableEq, Repr

/-- The `_empty_result` helper. -/
def emptyResult : AnalysisResult where
  total_amount := 0
  total_charges := 0
  transaction_count := 0
  aggregated_frame := []
  raw_df := []

/-- Embedding of `analyze_category`: an empty category gives the canonical
empty result; otherwise rows are split by `is_charge` (the records the
categorizer produces always carry that column), the authoritative column
is summed on each side, the count is `nunique` of the receipt numbers of
the non-charge rows, and the aggregated frame is built from the
non-charge rows. -/
def analyze_category (rows : List CatRecord) (is_money_in : Bool) : AnalysisResult :=
  if rows = [] then emptyResult
  else
    let transactions := rows.filter fun r => !r.is_charge
    let charges := rows.filter fun r => r.is_charge
    { total_amount := (transactions.map (amountOf is_money_in)).sum
      total_charges := (charges.map (amountOf is_money_in)).sum
      transaction_count := (transactions.map fun r => r.receiptno).dedup.length
      aggregated_frame := aggregateByEntity is_money_in transactions
      raw_df := rows }

/-! ## Claim C4 -/

theorem ite_true_or (b x : Bool) : (if b = true then true else x) = (b || x) := by
  cases b <;> simp

theorem decide_exists_mem_any {α : Type} (l : List α) (p : α → Bool) :
    decide (∃ x ∈ l, p x = true) = l.any p := by
  by_cases h : ∃ x ∈ l, p x = true
  · rw [decide_eq_true h, eq_comm]
    exact List.any_eq_true.mpr h
  · rw [decide_eq_false h, eq_comm]
    rw [← Bool.not_eq_true]
    intro hc
    exact h (List.any_eq_true.mp hc)

theorem decide_eq_beq_string (a b : String) : decide (a = b) = (a == b) := by
  by_cases h : a = b <;> simp [h]

/-- C4, corrected.  The claim says `_matches_field_pattern` is true iff
some configured operator succeeds (with a spec carrying no recognized key
vacuously true).  The fallthrough return only rules out the first four
operator keys, so a spec whose only recognized operator is
`not_starts_with` is accepted even when that operator fails.  Amended
statement: the result is true iff some configured operator succeeds or
none of `contains`, `equals`, `startswith`, `startswith_numeric` is
present. -/
theorem claim4_matches_field_characterization (v : String) (p : FieldSpec) :
    matchesFieldPattern v p =
      (opSuccess v p ||
        (p.contains.isNone && p.equals.isNone && p.startswith.isNone &&
          p.startswith_numeric.isNone)) := by
  obtain ⟨c, e, sw, swn, nsw, ok⟩ := p
  cases c <;> cases e <;> cases sw <;> cases swn <;> cases nsw <;> cases ok <;>
    simp [matchesFieldPattern, opSuccess, FieldSpec.nonEmptyMap, ite_true_or,
      Bool.or_assoc, decide_exists_mem_any, decide_eq_beq_string]

/-- C4, counterexample to the claim as stated: on the field value
`"abc"`, a spec whose only key is `not_starts_with: "a"` has no
succeeding operator (the value does start with `"a"`), yet the code
returns true. -/
theorem claim4_counterexample :
    matchesFieldPattern "abc" { not_starts_with := some "a" } = true ∧
    claimFieldMatch "abc" { not_starts_with := some "a" } = false := by
  refine ⟨by decide, by decide⟩

/-! ## Claim C5 -/

theorem processEntity_category (r : CatRecord) (c : String) :
    (processEntity r c).category = r.category := by
  unfold processEntity
  split_ifs <;> rfl

theorem matchLoop_eq_filter_map (t : Transaction) (defs : List CategoryDef) :
    matchLoop t defs =
      (defs.filter fun d => matchesPattern t d.patterns).map fun d =>
        processEntity { baseRecord t with category := d.name } d.name := by
  induction defs with
  | nil => rfl
  | cons d rest ih =>
    by_cases h : matchesPattern t d.patterns
    · simp [matchLoop, List.filter_cons, h, ih]
    · simp [matchLoop, List.filter_cons, h, ih]

/-- C5, confirmed.  For a transaction whose lowered details are neither
empty nor the literal `"nan"`, `categorize_transaction` returns a
non-empty list; its category tags are exactly the names of the matching
definitions in order (so a transaction matching several definitions
appears in every one of those categories), and `"uncategorized"` exactly
when no definition matches; with at least one match the output is one
entity-processed record per matching definition. -/
theorem claim5_categorize_fanout (t : Transaction) (defs : List CategoryDef)
    (h1 : ¬ pyLower t.details = "") (h2 : ¬ pyLower t.details = "nan") :
    ¬ categorize_transaction defs t = [] ∧
    (categorize_transaction defs t).map (fun r => r.category) =
      (if (defs.filter fun d => matchesPattern t d.patterns) = [] then
        ["uncategorized"]
      else (defs.filter fun d => matchesPattern t d.patterns).map fun d => d.name) ∧
    (¬ (defs.filter fun d => matchesPattern t d.patterns) = [] →
      categorize_transaction defs t =
        (defs.filter fun d => matchesPattern t d.patterns).map fun d =>
          processEntity { baseRecord t with category := d.name } d.name) := by
  unfold categorize_transaction
  rw [if_neg (by
    intro hor
    rcases hor with hh | hh
    · exact h2 hh
    · exact h1 hh)]
  rw [matchLoop_eq_filter_map]
  by_cases hm : (defs.filter fun d => matchesPattern t d.patterns) = []
  · rw [hm]
    simp only [List.map_nil, if_pos rfl]
    refine ⟨by simp, by simp, ?_⟩
    intro hcon
    exact absurd (by simp) hcon
  · have hmap : ¬ ((defs.filter fun d => matchesPattern t d.patterns).map fun d =>
        processEntity { baseRecord t with category := d.name } d.name) = [] := by
      simpa using hm
    rw [if_neg hmap]
    refine ⟨hmap, ?_, fun _ => rfl⟩
    rw [if_neg hm, List.map_map]
    refine List.map_congr_left ?_
    intro d _
    exact processEntity_category { baseRecord t with category := d.name } d.name

/-- Two category definitions whose `contains` keywords both occur in one
transaction, for the fan-out witness. -/
def fanoutDefA : CategoryDef where
  name := "CatA"
  patterns := [(FieldKey.details, { contains := some ["sent to"] })]

def fanoutDefB : CategoryDef where
  name := "CatB"
  patterns := [(FieldKey.details, { contains := some ["john"] })]

def fanoutTx : Transaction where
  receiptno := "R1"
  completiontime := 0
  details := "Sent To 0712 - JOHN"
  paidin := 0
  withdrawn := 100
  entity := "JOHN"
  type_class := "Sent To 0712"
  type_desc := ""

theorem claim5_witness :
    (categorize_transaction [fanoutDefA, fanoutDefB] fanoutTx).map
      (fun r => r.category) = ["CatA", "CatB"] := by
  have h := claim5_categorize_fanout fanoutTx [fanoutDefA, fanoutDefB]
    (by decide) (by decide)
  exact h.2.1.trans (by decide)

/-! ## Claim C6 -/

/-- C6, confirmed.  With `is_money_in=False` on a non-empty category,
`analyze_category` partitions the rows by `is_charge` and returns the sum
of `withdrawn` over the non-charge rows as `total_amount`, the sum of
`withdrawn` over the charge rows as `total_charges`, and the number of
distinct receipt numbers among the non-charge rows as
`transaction_count`. -/
theorem amountOf_false : amountOf false = fun r => r.withdrawn := by
  funext r
  simp [amountOf]

theorem claim6_analyze_money_out (rows : List CatRecord) (h : ¬ rows = []) :
    (analyze_category rows false).total_amount =
      (((rows.partition fun r => r.is_charge).2).map fun r => r.withdrawn).sum ∧
    (analyze_category rows false).total_charges =
      (((rows.partition fun r => r.is_charge).1).map fun r => r.withdrawn).sum ∧
    (analyze_category rows false).transaction_count =
      (((rows.partition fun r => r.is_charge).2).map fun r => r.receiptno).toFinset.card := by
  unfold analyze_category
  rw [if_neg h]
  rw [List.partition_eq_filter_filter]
  refine ⟨?_, ?_, ?_⟩
  · simp [amountOf_false, Function.comp_def]
  · simp [amountOf_false, Function.comp_def]
  · simp [List.card_toFinset, Function.comp_def]

/-- The two rows of the spec example for C6: one transfer of 300 and one
charge of 30 under the same receipt number. -/
def exampleRowMain : CatRecord where
  receiptno := "R1"
  completiontime := 0
  details := "Customer Transfer - A"
  paidin := 0
  withdrawn := 300
  entity := "A"
  type_class := "Customer Transfer"
  type_desc := ""
  processed_entity := "A"
  account_no := none
  is_charge := false
  category := "Send Money"

def exampleRowCharge : CatRecord where
  receiptno := "R1"
  completiontime := 0
  details := "Customer Transfer Charge"
  paidin := 0
  withdrawn := 30
  entity := "Customer Transfer Charge"
  type_class := "Customer Transfer Charge"
  type_desc := ""
  processed_entity := "Customer Transfer Charge"
  account_no := none
  is_charge := true
  category := "Send Money"

theorem claim6_witness :
    (analyze_category [exampleRowMain, exampleRowCharge] false).total_amount = 300 ∧
    (analyze_category [exampleRowMain, exampleRowCharge] false).total_charges = 30 ∧
    (analyze_category [exampleRowMain, exampleRowCharge] false).transaction_count = 1 := by
  have h := claim6_analyze_money_out [exampleRowMain, exampleRowCharge] (by decide)
  refine ⟨h.1.trans ?_, h.2.1.trans ?_, h.2.2.trans ?_⟩ <;>
    norm_num [exampleRowMain, exampleRowCharge, List.partition_eq_filter_filter]

/-! ## Claim C7 -/

/-- C7, confirmed.  On a non-empty category the aggregated frame is a
permutation of the per-entity rollup of the non-charge rows (one row per
distinct `processed_entity`, carrying the group size and the summed
authoritative amount) and its rows are sorted non-increasingly by that
summed amount, so its first K rows are a top-K selection. -/
theorem claim7_aggregated_frame_sorted (rows : List CatRecord) (mi : Bool)
    (h : ¬ rows = []) :
    List.Chain' aggLE ((analyze_category rows mi).aggregated_frame) ∧
    List.Perm ((analyze_category rows mi).aggregated_frame)
      (((rows.filter fun r => !r.is_charge).map fun r => r.processed_entity).dedup.map
        fun k =>
          (k,
           ((rows.filter fun r => !r.is_charge).filter
             fun r => r.processed_entity == k).length,
           (((rows.filter fun r => !r.is_charge).filter
             fun r => r.processed_entity == k).map (amountOf mi)).sum)) := by
  unfold analyze_category
  rw [if_neg h]
  constructor
  · exact (List.sorted_insertionSort aggLE _).chain'
  · exact List.perm_insertionSort aggLE _

/-- Rows for the sortedness witness: entity `"B"` outspends entity
`"A"`, so the frame must list `"B"` first. -/
def sortRowA : CatRecord where
  receiptno := "R1"
  completiontime := 0
  details := "Pay - A"
  paidin := 0
  withdrawn := 5
  entity := "A"
  type_class := "Pay"
  type_desc := ""
  processed_entity := "A"
  account_no := none
  is_charge := false
  category := "BuyGoods"

def sortRowB : CatRecord where
  receiptno := "R2"
  completiontime := 0
  details := "Pay - B"
  paidin := 0
  withdrawn := 7
  entity := "B"
  type_class := "Pay"
  type_desc := ""
  processed_entity := "B"
  account_no := none
  is_charge := false
  category := "BuyGoods"

theorem claim7_witness :
    List.Chain' aggLE ((analyze_category [sortRowA, sortRowB] false).aggregated_frame) ∧
    List.Perm ((analyze_category [sortRowA, sortRowB] false).aggregated_frame)
      ((([sortRowA, sortRowB].filter fun r => !r.is_charge).map
          fun r => r.processed_entity).dedup.map
        fun k =>
          (k,
           (([sortRowA, sortRowB].filter fun r => !r.is_charge).filter
             fun r => r.processed_entity == k).length,
           ((([sortRowA, sortRowB].filter fun r => !r.is_charge).filter
             fun r => r.processed_entity == k).map (amountOf false)).sum)) :=
  claim7_aggregated_frame_sorted [sortRowA, sortRowB] false (by decide)

/-! ## Claim C8 -/

theorem breakAtSpace_of_not_mem {l : List Char} (h : ¬ ' ' ∈ l) :
    breakAtSpace l = none := by
  induction l with
  | nil => rfl
  | cons c rest ih =>
    unfold breakAtSpace
    rw [if_neg (fun hc => h (List.mem_cons.mpr (Or.inl hc.symm)))]
    rw [ih fun hm => h (List.mem_cons.mpr (Or.inr hm))]
    rfl

theorem breakAtSpace_append {pre post : List Char} (h : ¬ ' ' ∈ pre) :
    breakAtSpace (pre ++ ' ' :: post) = some (pre, post) := by
  induction pre with
  | nil => simp [breakAtSpace]
  | cons c rest ih =>
    rw [List.cons_append]
    unfold breakAtSpace
    rw [if_neg (fun hc => h (List.mem_cons.mpr (Or.inl hc.symm)))]
    rw [ih fun hm => h (List.mem_cons.mpr (Or.inr hm))]
    rfl

/-- C8, corrected.  The spec says a money-transfer entity that begins with
a digit OR contains the masking character is split at the first space into
an account token and a name.  In the code this split lives in
`process_masked_phone`, which only splits when the entity contains an
asterisk (`masked_phone_pattern`); a digit-leading entity without an
asterisk falls through to `entity.title()` whole, with an empty account.
Amended statement, for a money-transfer category and a non-empty entity:
with an asterisk and no space, the whole entity is title-cased and the
account is empty; with an asterisk and a first space, the remainder after
that space becomes `processed_entity` and the leading token becomes
`account_no`, both title-cased; without an asterisk (even digit-leading),
the whole entity is title-cased and the account is empty. -/
theorem claim8_money_transfer_entity (r : CatRecord) (cat : String)
    (hcat : cat ∈ money_transfer_cats) (hne : ¬ r.entity = "") :
    (('*' ∈ r.entity.data ∧ ¬ ' ' ∈ r.entity.data) →
      processEntity r cat =
        { r with processed_entity := pyTitle r.entity, account_no := some "" }) ∧
    (∀ pre post, r.entity.data = pre ++ ' ' :: post → ¬ ' ' ∈ pre →
      '*' ∈ r.entity.data →
      processEntity r cat =
        { r with processed_entity := pyTitle ⟨post⟩,
                 account_no := some (pyTitle ⟨pre⟩) }) ∧
    ((¬ '*' ∈ r.entity.data) → headIsDigit r.entity = true →
      processEntity r cat =
        { r with processed_entity := pyTitle r.entity, account_no := some "" }) := by
  refine ⟨?_, ?_, ?_⟩
  · rintro ⟨hstar, hnosp⟩
    have hpmp : process_masked_phone r.entity = (pyTitle r.entity, "") := by
      unfold process_masked_phone
      rw [if_neg hne, if_pos (List.elem_iff.mpr hstar),
        breakAtSpace_of_not_mem hnosp]
    unfold processEntity
    rw [if_pos hcat,
      if_pos ⟨hne, Bool.or_eq_true _ _ |>.mpr (Or.inr (List.elem_iff.mpr hstar))⟩,
      hpmp]
  · intro pre post hdata hpre hstar
    have hpmp : process_masked_phone r.entity = (pyTitle ⟨post⟩, pyTitle ⟨pre⟩) := by
      unfold process_masked_phone
      rw [if_neg hne, if_pos (List.elem_iff.mpr hstar), hdata,
        breakAtSpace_append hpre]
    unfold processEntity
    rw [if_pos hcat,
      if_pos ⟨hne, Bool.or_eq_true _ _ |>.mpr (Or.inr (List.elem_iff.mpr hstar))⟩,
      hpmp]
  · intro hnostar hdig
    have hcont : ¬ (r.entity.data.contains '*' = true) :=
      fun hc => hnostar (List.elem_iff.mp hc)
    have hpmp : process_masked_phone r.entity = (pyTitle r.entity, "") := by
      unfold process_masked_phone
      rw [if_neg hne, if_neg hcont]
    unfold processEntity
    rw [if_pos hcat, if_pos ⟨hne, Bool.or_eq_true _ _ |>.mpr (Or.inl hdig)⟩, hpmp]

/-- A masked-phone record (entity with an asterisk) for the C8 witness. -/
def starRec : CatRecord where
  receiptno := "R1"
  completiontime := 0
  details := "Customer Transfer To 07** Jane - 07** jane roe"
  paidin := 0
  withdrawn := 10
  entity := "07** jane roe"
  type_class := "Customer Transfer To 07**"
  type_desc := ""
  processed_entity := "07** jane roe"
  account_no := none
  is_charge := false
  category := "Send Money"

theorem claim8_witness :
    processEntity starRec "Send Money" =
      { starRec with processed_entity := "Jane Roe", account_no := some "07**" } := by
  have h := claim8_money_transfer_entity starRec "Send Money" (by decide) (by decide)
  have h2 := h.2.1 (("07**" : String).data) (("jane roe" : String).data)
    (by decide) (by decide) (by decide)
  exact h2.trans (by decide)

/-- A digit-leading, asterisk-free record for the C8 counterexample. -/
def digitRec : CatRecord where
  receiptno := "R2"
  completiontime := 0
  details := "Customer Transfer To 0712 - 0712 john doe"
  paidin := 0
  withdrawn := 10
  entity := "0712 john doe"
  type_class := "Customer Transfer To 0712"
  type_desc := ""
  processed_entity := "0712 john doe"
  account_no := none
  is_charge := false
  category := "Send Money"

/-- C8, counterexample to the claim as stated: the digit-leading entity
`"0712 john doe"` (no asterisk) in the money-transfer category
`"Send Money"` is not split: the claimed split would give name
`"John Doe"` and account `"0712"`, but the code title-cases the whole
entity and leaves the account empty. -/
theorem claim8_counterexample :
    headIsDigit "0712 john doe" = true ∧
    (processEntity digitRec "Send Money").processed_entity = "0712 John Doe" ∧
    (processEntity digitRec "Send Money").account_no = some "" ∧
    ¬ (processEntity digitRec "Send Money").processed_entity = "John Doe" := by
  refine ⟨by decide, by decide, by decide, by decide⟩

/-! ## Claim C9 -/

theorem lookup_mapAppend (m : List (String × List CatRecord)) (r : CatRecord)
    (name : String) :
    List.lookup name
        (m.map fun kv => if kv.1 = r.category then (kv.1, kv.2 ++ [r]) else kv) =
      if r.category = name then (List.lookup name m).map fun v => v ++ [r]
      else List.lookup name m := by
  induction m with
  | nil => simp [apply_ite]
  | cons kv rest ih =>
    rw [List.map_cons]
    by_cases hk : kv.1 = r.category
    · rw [if_pos hk]
      by_cases hn : kv.1 = name
      · have hrn : r.category = name := hk ▸ hn
        rw [List.lookup_cons, List.lookup_cons]
        have hbeq : (name == kv.1) = true := beq_iff_eq.mpr hn.symm
        rw [hbeq]
        rw [if_pos hrn]
        rfl
      · have hbeq : (name == kv.1) = false := beq_eq_false_iff_ne.mpr fun he => hn he.symm
        rw [List.lookup_cons, List.lookup_cons, hbeq]
        exact ih
    · rw [if_neg hk]
      by_cases hn : kv.1 = name
      · have hrn : ¬ r.category = name := fun he => hk (hn ▸ he.symm)
        have hbeq : (name == kv.1) = true := beq_iff_eq.mpr hn.symm
        rw [List.lookup_cons, List.lookup_cons, hbeq, if_neg hrn]
      · have hbeq : (name == kv.1) = false := beq_eq_false_iff_ne.mpr fun he => hn he.symm
        rw [List.lookup_cons, List.lookup_cons, hbeq]
        exact ih

theorem lookup_eq_none_of_not_mem {β : Type} (m : List (String × β)) (name : String)
    (h : ¬ name ∈ m.map Prod.fst) : List.lookup name m = none := by
  induction m with
  | nil => rfl
  | cons kv rest ih =>
    rw [List.lookup_cons]
    have hbeq : (name == kv.1) = false :=
      beq_eq_false_iff_ne.mpr fun he => h (List.mem_cons.mpr (Or.inl he))
    rw [hbeq]
    exact ih fun hm => h (List.mem_cons.mpr (Or.inr hm))

theorem lookup_addToCategory (m : List (String × List CatRecord)) (r : CatRecord)
    (name : String) :
    List.lookup name (addToCategory m r) =
      if r.category = name then (List.lookup name m).map fun v => v ++ [r]
      else List.lookup name m := by
  unfold addToCategory
  by_cases hk : r.category ∈ m.map Prod.fst
  · rw [if_pos hk, lookup_mapAppend]
  · rw [if_neg hk]
    by_cases hrn : r.category = name
    · rw [if_pos hrn]
      rw [lookup_eq_none_of_not_mem m name (hrn ▸ hk)]
      rfl
    · rw [if_neg hrn]

theorem lookup_foldRecords (recs : List CatRecord)
    (m : List (String × List CatRecord)) (name : String) :
    List.lookup name (recs.foldl addToCategory m) =
      (List.lookup name m).map fun v =>
        v ++ recs.filter fun r => r.category == name := by
  induction recs generalizing m with
  | nil =>
    cases h : List.lookup name m <;> simp [h]
  | cons r rest ih =>
    rw [List.foldl_cons, ih, lookup_addToCategory]
    by_cases hr : r.category = name
    · rw [if_pos hr]
      cases h : List.lookup name m <;>
        simp [h, List.filter_cons, hr]
    · rw [if_neg hr]
      have hbeq : (r.category == name) = false := beq_eq_false_iff_ne.mpr hr
      rw [List.filter_cons, hbeq]
      rfl

theorem lookup_runCategorize (defs : List CategoryDef) (df : List Transaction)
    (m : List (String × List CatRecord)) (name : String) :
    List.lookup name
        (df.foldl
          (fun acc t => (categorize_transaction defs t).foldl addToCategory acc) m) =
      (List.lookup name m).map fun v =>
        v ++ df.flatMap fun t =>
          (categorize_transaction defs t).filter fun r => r.category == name := by
  induction df generalizing m with
  | nil =>
    cases h : List.lookup name m <;> simp [h]
  | cons t rest ih =>
    rw [List.foldl_cons, ih, lookup_foldRecords]
    cases h : List.lookup name m <;>
      simp [h, List.flatMap_cons, List.append_assoc]

/-- C9, confirmed.  Categorization is reproducible: two categorizer
states freshly built from the same definition list produce identical
category membership maps on the same transaction list, and on every
category key of the fresh state the resulting membership list is the pure
per-category comprehension over the input (the seeded list followed by,
in input order, every record the transaction produces for that
category). -/
theorem claim9_categorization_reproducible (defs : List CategoryDef)
    (df : List Transaction) (s1 s2 : CategorizerState)
    (h1 : s1 = initState defs) (h2 : s2 = initState defs) :
    runCategorize s1 df = runCategorize s2 df ∧
    ∀ name rows0,
      List.lookup name (initState defs).categories = some rows0 →
      List.lookup name (runCategorize s1 df) =
        some (rows0 ++ df.flatMap fun t =>
          (categorize_transaction defs t).filter fun r => r.category == name) := by
  subst h1
  subst h2
  refine ⟨rfl, ?_⟩
  intro name rows0 hl
  unfold runCategorize
  rw [lookup_runCategorize]
  rw [show (initState defs).category_definitions = defs from rfl] at *
  rw [hl]
  rfl

theorem claim9_witness :
    runCategorize (initState [fanoutDefA]) [fanoutTx] =
      runCategorize (initState [fanoutDefA]) [fanoutTx] ∧
    ∀ name rows0,
      List.lookup name (initState [fanoutDefA]).categories = some rows0 →
      List.lookup name (runCategorize (initState [fanoutDefA]) [fanoutTx]) =
        some (rows0 ++ [fanoutTx].flatMap fun t =>
          (categorize_transaction [fanoutDefA] t).filter
            fun r => r.category == name) :=
  claim9_categorization_reproducible [fanoutDefA] [fanoutTx] _ _ rfl rfl

end Sape
